import Mathlib

/-!
Verification of the UX-analyzer core pipeline (`ux-analyzer.py` and
`amplifier_ux_analyzer/utils/colors.py`).

The Python source is shallowly embedded: pure arithmetic on Python floats is
modelled with exact rationals (`ℚ`) — at every concrete input used below the
float computation is exact, so the models agree with the source there — and
`int(...)` truncation of a non-negative value is modelled as the floor.
External library calls (OpenCV k-means, OpenCV contour extraction, PIL image
resizing, easyocr recognition) are modelled as explicit parameters carrying
their results, while every line of the repository's own logic that consumes
those results is translated directly.
-/

namespace UX

/-! ## Color hex conversion (`utils/colors.py`, `UXAnalyzer.rgb_to_hex`) -/

/-- Lowercase hex digit for a value `0 ≤ n ≤ 15`, as produced by Python's
`x` format spec. -/
def hexDigit (n : Nat) : Char :=
  if n < 10 then Char.ofNat (Char.toNat '0' + n)
  else Char.ofNat (Char.toNat 'a' + (n - 10))

/-- The two-digit, zero-padded lowercase hex rendering (format spec 02x) of
a byte `0 ≤ n ≤ 255`. -/
def byteHex (n : Nat) : List Char :=
  [hexDigit (n / 16), hexDigit (n % 16)]

/-- Embeds `rgb_to_hex` (`colors.py` lines 5-18, identical to
`UXAnalyzer.rgb_to_hex` lines 79-81): a hash sign followed by the three
channels rendered with the 02x format spec. -/
def rgb_to_hex (rgb : Nat × Nat × Nat) : String :=
  String.mk ('#' :: (byteHex rgb.1 ++ byteHex rgb.2.1 ++ byteHex rgb.2.2))

/-- Value of one lowercase hex digit character, `none` on anything else. -/
def hexDigitVal (c : Char) : Option Nat :=
  if '0' ≤ c ∧ c ≤ '9' then some (c.toNat - Char.toNat '0')
  else if 'a' ≤ c ∧ c ≤ 'f' then some (c.toNat - Char.toNat 'a' + 10)
  else none

/-- Parses a `#rrggbb` hex color string back into its RGB triple; this is the
inverse direction used to state the round-trip property. -/
def parseHexColor (s : String) : Option (Nat × Nat × Nat) :=
  match s.data with
  | ['#', r1, r2, g1, g2, b1, b2] =>
    match hexDigitVal r1, hexDigitVal r2, hexDigitVal g1, hexDigitVal g2,
          hexDigitVal b1, hexDigitVal b2 with
    | some a, some b, some c, some d, some e, some f =>
      some (16 * a + b, 16 * c + d, 16 * e + f)
    | _, _, _, _, _, _ => none
  | _ => none

/-! ## Region segmentation (`UXAnalyzer.detect_regions`, lines 108-177) -/

/-- Integer rectangle, as the `bounds` dictionaries of the source. -/
structure Rect where
  x : Nat
  y : Nat
  width : Nat
  height : Nat
deriving DecidableEq, Repr

/-- A layout region as built by `detect_regions`: type tag, bounds, the two
sampled colors, and the element list that `analyze` attaches to the toolbar
region only (absent — `none` — for the others). -/
structure Region where
  rtype : String
  bounds : Rect
  background_color : String
  avg_color : String
deriving DecidableEq, Repr

/-- A color sampler abstracts the composite
`_get_region_color(pil_image.crop((l, t, r, b)))`: it returns the
`(dominant, average)` hex pair for the crop box. The crop's pixel content is
outside the embedded arithmetic, so the sampler is a parameter; the crop
boxes passed to it below are exactly those of the source. -/
def Sampler : Type := Nat → Nat → Nat → Nat → String × String

/-- Embeds `detect_regions` (lines 108-177). `top_band = height * 0.15` and
`bottom_band = height * 0.85` are modelled exactly; `int(...)` of the
non-negative float is the floor, so `int(top_band) = 15*h/100` (Nat
division), `int(bottom_band - top_band) = (85*h - 15*h)/100`, and
`int(height - bottom_band) = (100*h - 85*h)/100`. -/
def detect_regions (w h : Nat) (sample : Sampler) : List Region :=
  let top_band : Nat := 15 * h / 100
  let bottom_band : Nat := 85 * h / 100
  let top_colors := sample 0 0 w top_band
  let middle_colors := sample 0 top_band w bottom_band
  let bottom_colors := sample 0 bottom_band w h
  [ { rtype := "toolbar",
      bounds := { x := 0, y := 0, width := w, height := top_band },
      background_color := top_colors.1, avg_color := top_colors.2 },
    { rtype := "content",
      bounds := { x := 0, y := top_band, width := w,
                  height := (85 * h - 15 * h) / 100 },
      background_color := middle_colors.1, avg_color := middle_colors.2 },
    { rtype := "status_bar",
      bounds := { x := 0, y := bottom_band, width := w,
                  height := (100 * h - 85 * h) / 100 },
      background_color := bottom_colors.1, avg_color := bottom_colors.2 } ]

/-! ## Region color sampling (`UXAnalyzer._get_region_color`, lines 179-199) -/

/-- An RGB pixel value. -/
def Pix : Type := Nat × Nat × Nat

instance : DecidableEq Pix := by
  unfold Pix
  infer_instance

/-- Distinct pixel values of a list in first-occurrence order, as PIL's
`getcolors` enumerates them. -/
def distinctColors : List Pix → List Pix
  | [] => []
  | p :: ps => p :: distinctColors (ps.filter (fun q => q ≠ p))
termination_by l => l.length
decreasing_by
  simp only [List.length_cons]
  exact Nat.lt_succ_of_le (List.length_filter_le _ _)

/-- Embeds PIL's `Image.getcolors(maxcolors)` on the pixel list of an image:
the `(count, color)` histogram, or `None` when the number of distinct colors
exceeds `maxcolors`. -/
def getcolors (pixels : List Pix) (maxcolors : Nat) : Option (List (Nat × Pix)) :=
  let distinct := distinctColors pixels
  if distinct.length > maxcolors then none
  else some (distinct.map (fun c => (pixels.count c, c)))

/-- Python's `max(colors, key=lambda x: x[0])` on a nonempty list: left fold
keeping the current maximum, replacing it only on a strictly larger key, so
the first maximal entry wins. -/
def pyMaxByCount (x : Nat × Pix) (xs : List (Nat × Pix)) : Nat × Pix :=
  xs.foldl (fun acc y => if y.1 > acc.1 then y else acc) x

/-- Embeds the core of `_get_region_color` (lines 179-199), returning the
`(dominant, average)` hex pair. The external PIL resizes are abstracted: `avg`
is the pixel of the 1×1 resize and `small` the pixel list of the 50×50
resize. `if colors:` is falsy both on `None` and on an empty list, so either
falls back to the average color. -/
def get_region_color (avg : Pix) (small : List Pix) : String × String :=
  let colors := getcolors small 2500
  let dominant : Pix :=
    match colors with
    | some (c :: cs) => (pyMaxByCount c cs).2
    | _ => avg
  (rgb_to_hex dominant, rgb_to_hex avg)

/-! ## Dominant palette (`UXAnalyzer.get_dominant_colors`, lines 83-106) -/

/-- One entry of the palette returned by `get_dominant_colors`. `idx` records
the cluster index `i` of the `enumerate(centers)` loop (not part of the
emitted dictionary, kept to state ordering properties). -/
structure CColor where
  idx : Nat
  rgb : Nat × Nat × Nat
  hex : String
  frequency : ℚ
deriving DecidableEq, Repr

/-- One step of the stable descending-by-frequency sort: insert `a` before
the first element whose frequency is at most `a`'s, so an element never moves
past an equal-frequency element — exactly the stability guarantee of Python's
`sorted(..., reverse=True)`. -/
def freqInsert (a : CColor) : List CColor → List CColor
  | [] => [a]
  | b :: l => if b.frequency ≤ a.frequency then a :: b :: l
              else b :: freqInsert a l

/-- Embeds `sorted(colors, key=lambda x: x["frequency"], reverse=True)`
(line 106): a stable sort by frequency descending, modelled as stable
insertion sort. -/
def sortByFreqDesc : List CColor → List CColor
  | [] => []
  | a :: l => freqInsert a (sortByFreqDesc l)

/-- Embeds the repository's own logic of `get_dominant_colors` (lines
94-106). The `cv2.kmeans` call is external; its outputs are the parameters:
`labels` assigns each pixel a cluster index and `centers` lists the cluster
centroids (already truncated to integers, as `tuple(int(c) for c in
center)` does). Every center is emitted — one Color per cluster, frequency
`np.sum(labels == i) / len(labels)` — and the list is sorted by frequency
descending. -/
def get_dominant_colors (labels : List Nat) (centers : List (Nat × Nat × Nat)) :
    List CColor :=
  let colors := centers.enum.map (fun ic =>
    { idx := ic.1, rgb := ic.2, hex := rgb_to_hex ic.2,
      frequency := (labels.count ic.1 : ℚ) / (labels.length : ℚ) : CColor })
  sortByFreqDesc colors

/-- The ordering the palette satisfies: strictly larger frequency first, and
ascending cluster index (the `enumerate` position, first-seeded first) on
equal frequencies. -/
def paletteOrder (a b : CColor) : Prop :=
  b.frequency < a.frequency ∨ (a.frequency = b.frequency ∧ a.idx < b.idx)

/-! ## Element detection (`UXAnalyzer.detect_ui_elements`, lines 201-261) -/

/-- The element type tags assigned by the aspect-ratio classification. -/
inductive ElementType where
  | horizontal_group
  | button
  | vertical_group
  | container
deriving DecidableEq, Repr

/-- Embeds the aspect-ratio branch of `detect_ui_elements` (lines 229-241):
`aspect_ratio = cw / ch` is a true float division, modelled as the exact
rational `q`; the source's float literals `1.5` and `0.5` are exactly the
rationals `3/2` and `1/2`. -/
def classifyAspect (q : ℚ) : ElementType :=
  if q > 3 then .horizontal_group
  else if 3 / 2 ≤ q ∧ q ≤ 3 then .button
  else if 1 / 2 ≤ q ∧ q < 3 / 2 then .button
  else if q < 1 / 2 then .vertical_group
  else .container

/-- A detected UI element dictionary (lines 247-257). -/
structure Element where
  etype : ElementType
  bounds : Rect
  background_color : String
  text : String
deriving DecidableEq, Repr

/-- Embeds `detect_ui_elements` (lines 201-261). The OpenCV part — Canny
edges and `findContours` over the region crop followed by
`cv2.boundingRect` — is external; `contourRects` carries its results: the
bounding rectangles `(cx, cy, cw, ch)` of the discovered contours, in
region-local coordinates. Each rectangle is filtered for noise
(`cw < 20 or ch < 15`) and for borders (`cw > w*0.9 or ch > h*0.9`, with
`0.9*w` modelled exactly as `9*w/10 : ℚ`), classified by aspect ratio, and
translated to global coordinates; `text` is set to the empty string. The
element's color comes from the sampler at the element's own crop box. -/
def detect_ui_elements (region : Region) (contourRects : List Rect)
    (sample : Sampler) : List Element :=
  let x := region.bounds.x
  let y := region.bounds.y
  let w := region.bounds.width
  let h := region.bounds.height
  contourRects.filterMap (fun c =>
    if c.width < 20 ∨ c.height < 15 then none
    else if (c.width : ℚ) > (w : ℚ) * (9 / 10) ∨
            (c.height : ℚ) > (h : ℚ) * (9 / 10) then none
    else
      let etype := classifyAspect ((c.width : ℚ) / (c.height : ℚ))
      let element_colors := sample (x + c.x) (y + c.y)
        (x + c.x + c.width) (y + c.y + c.height)
      some { etype := etype,
             bounds := { x := x + c.x, y := y + c.y,
                         width := c.width, height := c.height },
             background_color := element_colors.1,
             text := "" })

/-! ## Text extraction (`UXAnalyzer.extract_text`, lines 263-298) -/

/-- A text span of the result (lines 284-293). -/
structure TextSpan where
  text : String
  confidence : ℚ
  bounds : Rect
deriving DecidableEq, Repr

/-- A raw easyocr detection `(bbox, text, confidence)`: a nonempty polygon of
integer corner points (easyocr always emits four), the recognized text and
its confidence. -/
structure RawDetection where
  corner : Int × Int
  restCorners : List (Int × Int)
  text : String
  confidence : ℚ
deriving DecidableEq, Repr

/-- Outcome of the OCR collaborator as seen by the orchestrator: the reader
is unavailable (`easyocr` missing, `use_ocr=False`, or `Reader` raised in
`__init__`, lines 70-77), `readtext` raised (caught at lines 296-298), or
`readtext` returned a detection list. -/
inductive OcrOutcome where
  | unavailable
  | failure (msg : String)
  | success (results : List RawDetection)
deriving DecidableEq, Repr

/-- Converts one detection to a span (lines 272-293): `x`/`y` are the minima
of the bbox coordinates, width/height the maxima minus them. -/
def toTextSpan (d : RawDetection) : TextSpan :=
  let xs := d.corner.1 :: d.restCorners.map Prod.fst
  let ys := d.corner.2 :: d.restCorners.map Prod.snd
  let x := xs.foldl min d.corner.1
  let y := ys.foldl min d.corner.2
  let width := xs.foldl max d.corner.1 - x
  let height := ys.foldl max d.corner.2 - y
  { text := d.text, confidence := d.confidence,
    bounds := { x := x.toNat, y := y.toNat,
                width := width.toNat, height := height.toNat } }

/-- Embeds `extract_text` (lines 263-298): empty when the reader is
unavailable, empty when `readtext` raises (the `except` branch), otherwise
one span per detection. -/
def extract_text (ocr : OcrOutcome) : List TextSpan :=
  match ocr with
  | .unavailable => []
  | .failure _ => []
  | .success results => results.map toTextSpan

/-! ## Orchestration (`UXAnalyzer.analyze`, lines 300-339) -/

/-- A region together with the optional element list that `analyze` attaches
(the `region["elements"]` key is only created for the toolbar region). -/
structure RegionOut where
  region : Region
  elements : Option (List Element)
deriving DecidableEq, Repr

/-- The analysis result dictionary (lines 326-337). -/
structure AnalysisResult where
  width : Nat
  height : Nat
  colors : List CColor
  regions : List RegionOut
  text_elements : List TextSpan
deriving DecidableEq, Repr

/-- Embeds `analyze` (lines 300-339): palette extraction, region
segmentation, element detection on the toolbar region only, then text
extraction. `contoursOf` abstracts the external contour discovery for a
region's crop rectangle. -/
def analyze (w h : Nat) (labels : List Nat)
    (centers : List (Nat × Nat × Nat)) (sample : Sampler)
    (contoursOf : Rect → List Rect) (ocr : OcrOutcome) : AnalysisResult :=
  let colors := get_dominant_colors labels centers
  let regions := detect_regions w h sample
  let regionsOut := regions.map (fun r =>
    if r.rtype = "toolbar" then
      { region := r, elements := some (detect_ui_elements r (contoursOf r.bounds) sample) : RegionOut }
    else
      { region := r, elements := none })
  let text_elements := extract_text ocr
  { width := w, height := h, colors := colors,
    regions := regionsOut, text_elements := text_elements }

/-! ## Concrete inputs used by witnesses and counterexamples -/

/-- A constant color sampler used for concrete evaluations. -/
def sample0 : Sampler := fun _ _ _ _ => ("#000000", "#000000")

/-- A toolbar region of a 200×200 image, as segmented by `detect_regions`. -/
def regionW : Region :=
  { rtype := "toolbar", bounds := { x := 0, y := 0, width := 200, height := 30 },
    background_color := "#000000", avg_color := "#000000" }

/-- A contour bounding rectangle that survives both size filters of
`detect_ui_elements` inside `regionW`. -/
def rectW : Rect := { x := 10, y := 5, width := 40, height := 20 }

/-- The element that `detect_ui_elements regionW [rectW] sample0` produces. -/
def elementW : Element :=
  { etype := .button, bounds := { x := 10, y := 5, width := 40, height := 20 },
    background_color := "#000000", text := "" }

/-- A successful easyocr detection: an axis-aligned 10×10 box reading "OK". -/
def detectionW : RawDetection :=
  { corner := (0, 0), restCorners := [(10, 0), (10, 10), (0, 10)],
    text := "OK", confidence := 9 / 10 }

/-! ## Helper lemmas -/

lemma hexDigitVal_hexDigit : ∀ n, n < 16 → hexDigitVal (hexDigit n) = some n := by
  decide

lemma hexDigit_lower : ∀ n, n < 16 →
    ('0' ≤ hexDigit n ∧ hexDigit n ≤ '9') ∨
    ('a' ≤ hexDigit n ∧ hexDigit n ≤ 'f') := by
  decide

/-! ## Claims -/

/-- C9: for all (r,g,b) with each component in [0,255], `rgb_to_hex` produces
a lowercase, zero-padded string of the form `#rrggbb` (seven characters, a
leading `#`, six lowercase hex digits), and parsing that hex string back
yields exactly (r,g,b): the conversion round-trips. -/
theorem rgb_to_hex_round_trip (r g b : Nat)
    (hr : r ≤ 255) (hg : g ≤ 255) (hb : b ≤ 255) :
    parseHexColor (rgb_to_hex (r, g, b)) = some (r, g, b) ∧
    (rgb_to_hex (r, g, b)).length = 7 ∧
    (rgb_to_hex (r, g, b)).data.head? = some '#' ∧
    (∀ c ∈ (rgb_to_hex (r, g, b)).data.tail,
      ('0' ≤ c ∧ c ≤ '9') ∨ ('a' ≤ c ∧ c ≤ 'f')) := by
  have h1 : r / 16 < 16 := by omega
  have h2 : r % 16 < 16 := by omega
  have h3 : g / 16 < 16 := by omega
  have h4 : g % 16 < 16 := by omega
  have h5 : b / 16 < 16 := by omega
  have h6 : b % 16 < 16 := by omega
  refine ⟨?_, rfl, rfl, ?_⟩
  · show parseHexColor (String.mk _) = _
    simp only [rgb_to_hex, byteHex, parseHexColor, List.cons_append,
      List.nil_append, hexDigitVal_hexDigit _ h1, hexDigitVal_hexDigit _ h2,
      hexDigitVal_hexDigit _ h3, hexDigitVal_hexDigit _ h4,
      hexDigitVal_hexDigit _ h5, hexDigitVal_hexDigit _ h6,
      Option.some.injEq, Prod.mk.injEq]
    omega
  · intro c hc
    simp only [rgb_to_hex, byteHex, List.cons_append, List.nil_append,
      List.tail_cons, List.mem_cons, List.not_mem_nil, or_false] at hc
    rcases hc with h | h | h | h | h | h <;> subst h
    · exact hexDigit_lower _ h1
    · exact hexDigit_lower _ h2
    · exact hexDigit_lower _ h3
    · exact hexDigit_lower _ h4
    · exact hexDigit_lower _ h5
    · exact hexDigit_lower _ h6

/-- Witness for C9 at (255, 1, 10): the hypotheses hold and the round-trip
concludes concretely. -/
theorem rgb_to_hex_round_trip_witness :
    (255 ≤ 255 ∧ 1 ≤ 255 ∧ 10 ≤ 255) ∧
    parseHexColor (rgb_to_hex (255, 1, 10)) = some (255, 1, 10) :=
  ⟨by decide,
   (rgb_to_hex_round_trip 255 1 10 (by decide) (by decide) (by decide)).1⟩

/-- C3: over every positive aspect ratio, the classification of
`detect_ui_elements` assigns exactly one of the four element types per the
stated ranges, and the `container` branch is unreachable. -/
theorem classifyAspect_total (q : ℚ) (hq : 0 < q) :
    (q > 3 → classifyAspect q = .horizontal_group) ∧
    (3 / 2 ≤ q ∧ q ≤ 3 → classifyAspect q = .button) ∧
    (1 / 2 ≤ q ∧ q < 3 / 2 → classifyAspect q = .button) ∧
    (q < 1 / 2 → classifyAspect q = .vertical_group) ∧
    classifyAspect q ≠ .container := by
  refine ⟨fun hx => ?_, fun hx => ?_, fun hx => ?_, fun hx => ?_, ?_⟩
  · unfold classifyAspect
    rw [if_pos hx]
  · unfold classifyAspect
    rw [if_neg (by linarith [hx.2]), if_pos hx]
  · have hn1 : ¬ q > 3 := by linarith [hx.2]
    have hn2 : ¬ (3 / 2 ≤ q ∧ q ≤ 3) := by
      rintro ⟨h, _⟩
      linarith [hx.2]
    unfold classifyAspect
    rw [if_neg hn1, if_neg hn2, if_pos hx]
  · have hn1 : ¬ q > 3 := by linarith
    have hn2 : ¬ (3 / 2 ≤ q ∧ q ≤ 3) := by
      rintro ⟨h, _⟩
      linarith
    have hn3 : ¬ (1 / 2 ≤ q ∧ q < 3 / 2) := by
      rintro ⟨h, _⟩
      linarith
    unfold classifyAspect
    rw [if_neg hn1, if_neg hn2, if_neg hn3, if_pos hx]
  · unfold classifyAspect
    split_ifs with h1 h2 h3 h4
    · exact fun h => ElementType.noConfusion h
    · exact fun h => ElementType.noConfusion h
    · exact fun h => ElementType.noConfusion h
    · exact fun h => ElementType.noConfusion h
    · exfalso
      rw [not_lt] at h4
      have h5 : (3 : ℚ) / 2 ≤ q := by
        by_contra hl
        rw [not_le] at hl
        exact h3 ⟨h4, hl⟩
      have h6 : (3 : ℚ) < q := by
        by_contra hl
        rw [not_lt] at hl
        exact h2 ⟨h5, hl⟩
      exact h1 h6

/-- Witness for C3 at the ratio 2 = 40/20 (a 40×20 rectangle): positive, and
classified as a button, never as a container. -/
theorem classifyAspect_total_witness :
    (0 : ℚ) < 2 ∧ classifyAspect 2 ≠ .container :=
  ⟨by norm_num, (classifyAspect_total 2 (by norm_num)).2.2.2.2⟩

/-- C1 counterexample: for the 100×10 image (positive width and height), the
three region heights of `detect_regions` are 1, 7 and 1, summing to 9, not
10 — the bands do not tile the image, a one-pixel band at the bottom is
covered by no region. (At height 10 the Python float computation is exact:
`10*0.15 = 1.5` and `10*0.85 = 8.5` are both representable, so the exact
rational model coincides with the source here.) -/
theorem detect_regions_not_tiling :
    ((detect_regions 100 10 sample0).map (fun r => r.bounds.height)).sum ≠ 10 := by
  decide

/-- C1 amended: `detect_regions` returns exactly three regions in order
(toolbar, content, status_bar), each with x = 0 and width = image width, the
toolbar starting at y = 0, the content starting where the toolbar ends, and
the status bar starting at the 85% cut; the three heights sum to AT MOST the
image height, with equality — and hence a gapless, overlap-free tiling — when
the height is divisible by 20, but a shortfall otherwise (e.g. height 10
gives 1+7+1 = 9): the middle band does not absorb the rounding remainder. -/
theorem detect_regions_structure (w h : Nat) (sample : Sampler) :
    ∃ t c s, detect_regions w h sample = [t, c, s] ∧
      t.rtype = "toolbar" ∧ c.rtype = "content" ∧ s.rtype = "status_bar" ∧
      t.bounds.x = 0 ∧ c.bounds.x = 0 ∧ s.bounds.x = 0 ∧
      t.bounds.width = w ∧ c.bounds.width = w ∧ s.bounds.width = w ∧
      t.bounds.y = 0 ∧ c.bounds.y = t.bounds.height ∧
      s.bounds.y = 85 * h / 100 ∧
      t.bounds.height + c.bounds.height + s.bounds.height ≤ h ∧
      (20 ∣ h →
        s.bounds.y = c.bounds.y + c.bounds.height ∧
        t.bounds.height + c.bounds.height + s.bounds.height = h) := by
  refine ⟨_, _, _, rfl, rfl, rfl, rfl, rfl, rfl, rfl, rfl, rfl, rfl, rfl,
    rfl, rfl, ?_, ?_⟩
  · show 15 * h / 100 + (85 * h - 15 * h) / 100 + (100 * h - 85 * h) / 100 ≤ h
    omega
  · intro hdvd
    constructor
    · show 85 * h / 100 = 15 * h / 100 + (85 * h - 15 * h) / 100
      omega
    · show 15 * h / 100 + (85 * h - 15 * h) / 100 + (100 * h - 85 * h) / 100 = h
      omega

/-- Witness for C1's amended theorem at a 7×40 image: 20 divides 40, and the
heights 6, 28, 6 tile the image exactly. -/
theorem detect_regions_structure_witness :
    (20 ∣ 40) ∧
    ∃ t c s, detect_regions 7 40 sample0 = [t, c, s] ∧
      t.bounds.height + c.bounds.height + s.bounds.height = 40 := by
  obtain ⟨t, c, s, heq, hrest⟩ := detect_regions_structure 7 40 sample0
  have hdvd : (20 : Nat) ∣ 40 := by decide
  exact ⟨hdvd, t, c, s, heq,
    (hrest.2.2.2.2.2.2.2.2.2.2.2.2.2 hdvd).2⟩

lemma perm_freqInsert (a : CColor) (l : List CColor) :
    List.Perm (freqInsert a l) (a :: l) := by
  induction l with
  | nil => exact List.Perm.refl _
  | cons b t ih =>
    unfold freqInsert
    split
    · exact List.Perm.refl _
    · exact (ih.cons b).trans (List.Perm.swap a b t)

lemma perm_sortByFreqDesc (l : List CColor) : List.Perm (sortByFreqDesc l) l := by
  induction l with
  | nil => exact List.Perm.refl _
  | cons a t ih =>
    exact (perm_freqInsert a (sortByFreqDesc t)).trans (ih.cons a)

lemma length_sortByFreqDesc (l : List CColor) :
    (sortByFreqDesc l).length = l.length :=
  (perm_sortByFreqDesc l).length_eq

lemma length_get_dominant_colors (labels : List Nat)
    (centers : List (Nat × Nat × Nat)) :
    (get_dominant_colors labels centers).length = centers.length := by
  unfold get_dominant_colors
  rw [length_sortByFreqDesc, List.length_map, List.enum_length]

/-- C2 counterexample: a 2×2 solid red image (four pixels, one distinct
color) clustered with k = 3, the two extra clusters being empty (`labels`
all 0, all three centers red): `get_dominant_colors` emits THREE colors, two
of them with frequency 0 — empty clusters are not omitted, and no branch of
the source filters them. The claim's "each returned Color has frequency
strictly greater than 0" and "exactly one Color" both fail. -/
theorem get_dominant_colors_keeps_empty_clusters :
    (get_dominant_colors (List.replicate 4 0) (List.replicate 3 (255, 0, 0))).map
        (fun c => (c.hex, c.frequency)) =
      [("#ff0000", 1), ("#ff0000", 0), ("#ff0000", 0)] ∧
    ¬ ∀ c ∈ get_dominant_colors (List.replicate 4 0) (List.replicate 3 (255, 0, 0)),
        0 < c.frequency := by
  constructor
  · with_unfolding_all decide
  · with_unfolding_all decide

/-- C2 amended: `get_dominant_colors` emits exactly one Color per cluster
center — `centers.length` of them, for every clustering outcome — so empty
clusters appear in the result with frequency 0.0 rather than being omitted;
for the solid-red degenerate clustering with k = 3 the palette is three
entries `#ff0000` with frequencies 1.0, 0.0, 0.0, not one entry. -/
theorem get_dominant_colors_per_center :
    (∀ (labels : List Nat) (centers : List (Nat × Nat × Nat)),
      (get_dominant_colors labels centers).length = centers.length) ∧
    (get_dominant_colors (List.replicate 4 0) (List.replicate 3 (255, 0, 0))).map
        (fun c => (c.hex, c.frequency)) =
      [("#ff0000", 1), ("#ff0000", 0), ("#ff0000", 0)] := by
  refine ⟨fun labels centers => length_get_dominant_colors labels centers, ?_⟩
  with_unfolding_all decide

lemma sum_map_add_q (l : List Nat) (f g : Nat → ℚ) :
    (l.map (fun i => f i + g i)).sum = (l.map f).sum + (l.map g).sum := by
  induction l with
  | nil => simp
  | cons x t ih =>
    simp only [List.map_cons, List.sum_cons, ih]
    ring

lemma sum_map_indicator (a n : Nat) :
    ((List.range n).map (fun i => if a = i then (1 : ℚ) else 0)).sum
      = if a < n then 1 else 0 := by
  induction n with
  | zero => simp
  | succ m ih =>
    rw [List.range_succ, List.map_append, List.sum_append, ih]
    by_cases h2 : a = m
    · subst h2
      rw [if_neg (lt_irrefl a), if_pos (Nat.lt_succ_self a)]
      simp
    · by_cases h1 : a < m
      · rw [if_pos h1, if_pos (Nat.lt_succ_of_lt h1)]
        simp [h2]
      · rw [if_neg h1, if_neg (by omega)]
        simp [h2]

lemma sum_map_count_range (labels : List Nat) (n : Nat)
    (h : ∀ l ∈ labels, l < n) :
    ((List.range n).map (fun i => (labels.count i : ℚ))).sum = labels.length := by
  induction labels with
  | nil => simp
  | cons x t ih =>
    have hx : x < n := h x (List.mem_cons_self x t)
    have ht : ∀ l ∈ t, l < n := fun l hl => h l (List.mem_cons_of_mem x hl)
    have hfun : (fun i => (((x :: t).count i : Nat) : ℚ))
        = fun i => ((t.count i : ℚ) + if x = i then 1 else 0) := by
      funext i
      rw [List.count_cons]
      by_cases hxi : x = i
      · simp [hxi]
      · simp [hxi]
    rw [hfun, sum_map_add_q, ih ht, sum_map_indicator, if_pos hx,
      List.length_cons]
    push_cast
    ring

lemma sum_map_div_q (l : List Nat) (f : Nat → ℚ) (d : ℚ) :
    (l.map (fun i => f i / d)).sum = (l.map f).sum / d := by
  simp only [div_eq_mul_inv]
  exact List.sum_map_mul_right l f d⁻¹

/-- C5: for every clustering outcome with every label a valid cluster index
(`cv2.kmeans` returns labels in `[0, k)` and exactly `k` centers) and
`1 ≤ k ≤` number of pixels, the palette's frequencies sum to exactly 1 (hence
within the 1e-6 tolerance) and at most `k` colors are returned. -/
theorem get_dominant_colors_freq_sum (labels : List Nat)
    (centers : List (Nat × Nat × Nat)) (k : Nat)
    (hk : centers.length = k) (hk1 : 1 ≤ k) (hkn : k ≤ labels.length)
    (hlab : ∀ l ∈ labels, l < k) :
    ((get_dominant_colors labels centers).map (fun c => c.frequency)).sum = 1 ∧
    |((get_dominant_colors labels centers).map (fun c => c.frequency)).sum - 1|
        ≤ 1 / 1000000 ∧
    (get_dominant_colors labels centers).length ≤ k := by
  have hsum :
      ((get_dominant_colors labels centers).map (fun c => c.frequency)).sum = 1 := by
    have hperm := ((perm_sortByFreqDesc
      (centers.enum.map (fun ic =>
        { idx := ic.1, rgb := ic.2, hex := rgb_to_hex ic.2,
          frequency := (labels.count ic.1 : ℚ) / (labels.length : ℚ) : CColor }))).map
      (fun c : CColor => c.frequency)).sum_eq
    simp only [get_dominant_colors]
    rw [hperm, List.map_map]
    have hcomp : ((fun c : CColor => c.frequency) ∘ (fun ic : Nat × (Nat × Nat × Nat) =>
        { idx := ic.1, rgb := ic.2, hex := rgb_to_hex ic.2,
          frequency := (labels.count ic.1 : ℚ) / (labels.length : ℚ) : CColor }))
        = (fun i : Nat => (labels.count i : ℚ) / (labels.length : ℚ)) ∘ Prod.fst := rfl
    rw [hcomp, List.enum_eq_zip_range, ← List.map_map,
      List.map_fst_zip _ _ (by simp), sum_map_div_q,
      sum_map_count_range labels centers.length (by rw [hk]; exact hlab)]
    have h0 : (labels.length : ℚ) ≠ 0 := by
      have hpos : 0 < labels.length := lt_of_lt_of_le hk1 hkn
      exact_mod_cast hpos.ne'
    exact div_self h0
  refine ⟨hsum, ?_, ?_⟩
  · rw [hsum]
    norm_num
  · rw [length_get_dominant_colors, hk]

/-- Witness for C5: two pixels, two clusters (k = 2, labels 0 and 1):
frequencies sum to 1 and at most two colors come back. -/
theorem get_dominant_colors_freq_sum_witness :
    (([(0, 0, 0), (9, 9, 9)] : List (Nat × Nat × Nat)).length = 2 ∧
      1 ≤ 2 ∧ 2 ≤ ([0, 1] : List Nat).length ∧ ∀ l ∈ ([0, 1] : List Nat), l < 2) ∧
    ((get_dominant_colors [0, 1] [(0, 0, 0), (9, 9, 9)]).map
        (fun c => c.frequency)).sum = 1 :=
  ⟨⟨rfl, by omega, by decide, by decide⟩,
   (get_dominant_colors_freq_sum [0, 1] [(0, 0, 0), (9, 9, 9)] 2
      rfl (by omega) (by decide) (by decide)).1⟩

lemma pairwise_freqInsert (a : CColor) (l : List CColor)
    (hl : l.Pairwise paletteOrder) (ha : ∀ b ∈ l, a.idx < b.idx) :
    (freqInsert a l).Pairwise paletteOrder := by
  induction l with
  | nil => simp [freqInsert]
  | cons b t ih =>
    rw [List.pairwise_cons] at hl
    obtain ⟨hb, ht⟩ := hl
    unfold freqInsert
    by_cases hle : b.frequency ≤ a.frequency
    · rw [if_pos hle, List.pairwise_cons]
      refine ⟨?_, List.pairwise_cons.mpr ⟨hb, ht⟩⟩
      intro y hy
      rcases List.mem_cons.mp hy with rfl | hyt
      · rcases lt_or_eq_of_le hle with h | h
        · exact Or.inl h
        · exact Or.inr ⟨h.symm, ha y (List.mem_cons_self y t)⟩
      · rcases hb y hyt with h | ⟨heq, _⟩
        · exact Or.inl (lt_of_lt_of_le h hle)
        · rcases lt_or_eq_of_le hle with h2 | h2
          · exact Or.inl (heq ▸ h2)
          · exact Or.inr ⟨h2.symm.trans heq, ha y (List.mem_cons_of_mem b hyt)⟩
    · rw [if_neg hle, List.pairwise_cons]
      refine ⟨?_, ih ht (fun y hy => ha y (List.mem_cons_of_mem b hy))⟩
      intro y hy
      rcases List.mem_cons.mp ((perm_freqInsert a t).mem_iff.mp hy) with rfl | hyt
      · exact Or.inl (lt_of_not_le hle)
      · exact hb y hyt

lemma pairwise_sortByFreqDesc (l : List CColor)
    (h : l.Pairwise (fun a b => a.idx < b.idx)) :
    (sortByFreqDesc l).Pairwise paletteOrder := by
  induction l with
  | nil => simp [sortByFreqDesc]
  | cons a t ih =>
    rw [List.pairwise_cons] at h
    exact pairwise_freqInsert a _ (ih h.2)
      (fun b hb => h.1 b ((perm_sortByFreqDesc t).mem_iff.mp hb))

lemma enum_pairwise_fst {β : Type} (l : List β) :
    l.enum.Pairwise (fun p q => p.1 < q.1) := by
  have hr := List.pairwise_lt_range l.length
  rw [← List.enum_map_fst] at hr
  exact List.pairwise_map.mp hr

/-- C6: for every clustering outcome, the palette returned by
`get_dominant_colors` is sorted by frequency in strictly descending order
with ties broken by ascending cluster index (the first-seeded cluster
first): Python's `sorted` is stable and the pre-sort list is in ascending
cluster order, so the output order is deterministic for identical input. -/
theorem get_dominant_colors_sorted_stable (labels : List Nat)
    (centers : List (Nat × Nat × Nat)) :
    (get_dominant_colors labels centers).Pairwise paletteOrder := by
  simp only [get_dominant_colors]
  apply pairwise_sortByFreqDesc
  refine List.Pairwise.map _ ?_ (enum_pairwise_fst centers)
  intro a b hab
  exact hab

/-- C4: every element returned by `detect_ui_elements` lies entirely within
the owning region's bounds and satisfies the size filters: width ≥ 20,
height ≥ 15, width ≤ 0.9×region width, height ≤ 0.9×region height. The
hypothesis states OpenCV's `boundingRect` contract: contour bounding boxes
lie inside the cropped sub-image the contours were extracted from. -/
theorem detect_ui_elements_bounds (region : Region) (contourRects : List Rect)
    (sample : Sampler)
    (hc : ∀ c ∈ contourRects, c.x + c.width ≤ region.bounds.width ∧
          c.y + c.height ≤ region.bounds.height) :
    ∀ e ∈ detect_ui_elements region contourRects sample,
      region.bounds.x ≤ e.bounds.x ∧ region.bounds.y ≤ e.bounds.y ∧
      e.bounds.x + e.bounds.width ≤ region.bounds.x + region.bounds.width ∧
      e.bounds.y + e.bounds.height ≤ region.bounds.y + region.bounds.height ∧
      20 ≤ e.bounds.width ∧ 15 ≤ e.bounds.height ∧
      (e.bounds.width : ℚ) ≤ (region.bounds.width : ℚ) * (9 / 10) ∧
      (e.bounds.height : ℚ) ≤ (region.bounds.height : ℚ) * (9 / 10) := by
  intro e he
  simp only [detect_ui_elements, List.mem_filterMap] at he
  obtain ⟨c, hcm, hfc⟩ := he
  by_cases h1 : c.width < 20 ∨ c.height < 15
  · rw [if_pos h1] at hfc
    exact absurd hfc (by simp)
  · rw [if_neg h1] at hfc
    by_cases h2 : (c.width : ℚ) > (region.bounds.width : ℚ) * (9 / 10) ∨
        (c.height : ℚ) > (region.bounds.height : ℚ) * (9 / 10)
    · rw [if_pos h2] at hfc
      exact absurd hfc (by simp)
    · rw [if_neg h2] at hfc
      obtain rfl := Option.some.inj hfc
      push_neg at h1 h2
      obtain ⟨hcw, hch⟩ := hc c hcm
      refine ⟨?_, ?_, ?_, ?_, ?_, ?_, ?_, ?_⟩ <;> dsimp only
      · omega
      · omega
      · omega
      · omega
      · exact h1.1
      · exact h1.2
      · exact h2.1
      · exact h2.2

/-- Witness for C4: in the 200-wide, 30-high toolbar region with one contour
rectangle at (10, 5) of size 40×20, the produced element satisfies every
bound. -/
theorem detect_ui_elements_bounds_witness :
    elementW ∈ detect_ui_elements regionW [rectW] sample0 ∧
    (regionW.bounds.x ≤ elementW.bounds.x ∧
      regionW.bounds.y ≤ elementW.bounds.y ∧
      elementW.bounds.x + elementW.bounds.width ≤
        regionW.bounds.x + regionW.bounds.width ∧
      elementW.bounds.y + elementW.bounds.height ≤
        regionW.bounds.y + regionW.bounds.height ∧
      20 ≤ elementW.bounds.width ∧ 15 ≤ elementW.bounds.height ∧
      (elementW.bounds.width : ℚ) ≤ (regionW.bounds.width : ℚ) * (9 / 10) ∧
      (elementW.bounds.height : ℚ) ≤ (regionW.bounds.height : ℚ) * (9 / 10)) := by
  have hmem : elementW ∈ detect_ui_elements regionW [rectW] sample0 := by
    with_unfolding_all decide
  exact ⟨hmem,
    detect_ui_elements_bounds regionW [rectW] sample0 (by decide)
      elementW hmem⟩

/-- C7: when the OCR collaborator is unavailable or its recognition call
raises, `analyze` still returns a complete result with `text_elements` empty,
and the other fields (dimensions, colors, regions with their elements) are
exactly what any other OCR outcome would produce. -/
theorem analyze_text_degrades (w h : Nat) (labels : List Nat)
    (centers : List (Nat × Nat × Nat)) (sample : Sampler)
    (contoursOf : Rect → List Rect) (ocr : OcrOutcome)
    (hfail : ocr = .unavailable ∨ ∃ m, ocr = .failure m) :
    (analyze w h labels centers sample contoursOf ocr).text_elements = [] ∧
    ∀ ocr2 : OcrOutcome,
      (analyze w h labels centers sample contoursOf ocr).width =
        (analyze w h labels centers sample contoursOf ocr2).width ∧
      (analyze w h labels centers sample contoursOf ocr).height =
        (analyze w h labels centers sample contoursOf ocr2).height ∧
      (analyze w h labels centers sample contoursOf ocr).colors =
        (analyze w h labels centers sample contoursOf ocr2).colors ∧
      (analyze w h labels centers sample contoursOf ocr).regions =
        (analyze w h labels centers sample contoursOf ocr2).regions := by
  constructor
  · rcases hfail with rfl | ⟨m, rfl⟩ <;> rfl
  · intro ocr2
    exact ⟨rfl, rfl, rfl, rfl⟩

/-- Witness for C7 with a failing recognizer on a 1×1 image: the result's
text span list is empty. -/
theorem analyze_text_degrades_witness :
    ((OcrOutcome.failure "model load failed") = .unavailable ∨
      ∃ m, (OcrOutcome.failure "model load failed") = .failure m) ∧
    (analyze 1 1 [] [] sample0 (fun _ => [])
      (.failure "model load failed")).text_elements = [] :=
  ⟨Or.inr ⟨"model load failed", rfl⟩,
   (analyze_text_degrades 1 1 [] [] sample0 (fun _ => [])
      (.failure "model load failed") (Or.inr ⟨_, rfl⟩)).1⟩

/-- C8: evaluation at the failing input. On a 200×200 image whose toolbar
contains one detected 40×20 element, with OCR available and succeeding (one
recognized span "OK"), the returned element's `text` is still the empty
string: `detect_ui_elements` sets `"text": ""` with the comment "Will be
filled by OCR if available", but no code in `analyze` (or anywhere else)
ever writes recognized text into an element — recognized text only reaches
the separate `text_elements` list. -/
theorem analyze_element_text_stays_empty :
    (analyze 200 200 [0] [(0, 0, 0)] sample0 (fun _ => [rectW])
        (.success [detectionW])).text_elements =
      [{ text := "OK", confidence := 9 / 10,
         bounds := { x := 0, y := 0, width := 10, height := 10 } }] ∧
    (analyze 200 200 [0] [(0, 0, 0)] sample0 (fun _ => [rectW])
        (.success [detectionW])).regions.map
        (fun r => r.elements.map (fun es => es.map (fun e => e.text)))
      = [some [""], none, none] := by
  constructor
  · with_unfolding_all decide
  · with_unfolding_all decide

lemma distinctColors_length_le (l : List Pix) :
    (distinctColors l).length ≤ l.length := by
  induction l using distinctColors.induct with
  | case1 => simp [distinctColors]
  | case2 p ps ih =>
    rw [distinctColors]
    simp only [List.length_cons]
    exact Nat.succ_le_succ (le_trans ih (List.length_filter_le _ _))

lemma pyMaxByCount_mem (x : Nat × Pix) (xs : List (Nat × Pix)) :
    pyMaxByCount x xs ∈ x :: xs := by
  induction xs generalizing x with
  | nil => simp [pyMaxByCount]
  | cons y ys ih =>
    have hstep : pyMaxByCount x (y :: ys)
        = pyMaxByCount (if y.1 > x.1 then y else x) ys := rfl
    rw [hstep]
    rcases List.mem_cons.mp (ih (if y.1 > x.1 then y else x)) with heq | hmem
    · rw [heq]
      split_ifs
      · exact List.mem_cons_of_mem x (List.mem_cons_self y ys)
      · exact List.mem_cons_self x (y :: ys)
    · exact List.mem_cons_of_mem x (List.mem_cons_of_mem y hmem)

lemma pyMaxByCount_max (x : Nat × Pix) (xs : List (Nat × Pix)) :
    ∀ z ∈ x :: xs, z.1 ≤ (pyMaxByCount x xs).1 := by
  induction xs generalizing x with
  | nil =>
    intro z hz
    rcases List.mem_cons.mp hz with rfl | h
    · exact le_refl _
    · exact absurd h (List.not_mem_nil z)
  | cons y ys ih =>
    intro z hz
    have hstep : pyMaxByCount x (y :: ys)
        = pyMaxByCount (if y.1 > x.1 then y else x) ys := rfl
    rw [hstep]
    have hx : x.1 ≤ (if y.1 > x.1 then y else x).1 := by
      split_ifs with hgt
      · exact le_of_lt hgt
      · exact le_refl _
    have hy : y.1 ≤ (if y.1 > x.1 then y else x).1 := by
      split_ifs with hgt
      · exact le_refl _
      · exact le_of_not_lt hgt
    have hself := ih (if y.1 > x.1 then y else x)
    rcases List.mem_cons.mp hz with rfl | hz2
    · exact le_trans hx (hself _ (List.mem_cons_self _ _))
    · rcases List.mem_cons.mp hz2 with rfl | hz3
      · exact le_trans hy (hself _ (List.mem_cons_self _ _))
      · exact hself z (List.mem_cons_of_mem _ hz3)

/-- C10: for every non-empty 50×50 downsample (at most 2500 pixels, hence at
most 2500 distinct colors), `getcolors` with `maxcolors = 2500` never returns
`None`, the histogram is non-empty, and the dominant color produced by
`_get_region_color` is the most frequent histogram entry (first maximal entry
on ties) — the average-color fallback branch is unreachable. -/
theorem get_region_color_no_fallback (avg : Pix) (small : List Pix)
    (hne : small ≠ []) (hlen : small.length ≤ 2500) :
    ∃ c cs, getcolors small 2500 = some (c :: cs) ∧
      pyMaxByCount c cs ∈ c :: cs ∧
      (∀ x ∈ c :: cs, x.1 ≤ (pyMaxByCount c cs).1) ∧
      (get_region_color avg small).1 = rgb_to_hex (pyMaxByCount c cs).2 := by
  obtain ⟨p, ps, rfl⟩ := List.exists_cons_of_ne_nil hne
  have hd : distinctColors (p :: ps)
      = p :: distinctColors (ps.filter (fun q => q ≠ p)) := by
    rw [distinctColors]
  have hnot : ¬ (distinctColors (p :: ps)).length > 2500 :=
    not_lt.mpr (le_trans (distinctColors_length_le _) hlen)
  have hg : getcolors (p :: ps) 2500
      = some (((p :: ps).count p, p) ::
          (distinctColors (ps.filter (fun q => q ≠ p))).map
            (fun c => ((p :: ps).count c, c))) := by
    simp only [getcolors]
    rw [if_neg hnot, hd, List.map_cons]
  refine ⟨((p :: ps).count p, p), _, hg, pyMaxByCount_mem _ _,
    pyMaxByCount_max _ _, ?_⟩
  simp only [get_region_color]
  rw [hg]

/-- Witness for C10 on a concrete two-pixel downsample: the histogram branch
is taken, not the fallback. -/
theorem get_region_color_no_fallback_witness :
    (([(1, 2, 3), (1, 2, 3)] : List Pix) ≠ [] ∧
      ([(1, 2, 3), (1, 2, 3)] : List Pix).length ≤ 2500) ∧
    getcolors [(1, 2, 3), (1, 2, 3)] 2500 ≠ none := by
  refine ⟨⟨by decide, by decide⟩, ?_⟩
  obtain ⟨c, cs, hg, -, -, -⟩ := get_region_color_no_fallback (0, 0, 0)
    [(1, 2, 3), (1, 2, 3)] (by decide) (by decide)
  rw [hg]
  simp

end UX

